import Mathlib

/-!
Verification development for the `galax` / `galdynamix` repository excerpt.

The Python source is shallowly embedded in Lean 4:
* machine floats become exact rationals (`ℚ`); "equal up to floating-point /
  ODE-solver tolerance" becomes exact equality of the embedded computations;
* JAX arrays become Lean lists (with JAX's clamping gather semantics where the
  source indexes out of range);
* Python `dict`s become insertion-ordered association lists with Python's
  `dict.__or__` merge semantics;
* raised exceptions become `Except` values, with constructors named after the
  spec's error taxonomy (the excerpt raises `ValueError` where the spec says
  `ConfigurationError`).
-/

namespace GalaxSpec

/-- Error taxonomy of the spec (§7).  `configurationError` embeds the
`ValueError`s raised by the excerpt for invalid composition; `stopIteration`
embeds Python's `StopIteration` from `next(iter(...))` on an empty mapping. -/
inductive Err where
  | configurationError : String → Err
  | invalidTimeGrid : Err
  | stopIteration : Err
  deriving DecidableEq, Repr

/-- A position vector, abstracting the 3-vector `q` passed to
`potential_energy(q, t)`. -/
def Vec3 : Type := ℚ × ℚ × ℚ

/-- A non-composite potential (`AbstractPotentialBase`, whose module `base.py`
is outside the excerpt).  Only what `composite.py` consumes is kept: its unit
system (`units`, abstracted to a tag on which equality is decidable) and its
scalar `potential_energy(q, t)` method (an uninterpreted function). -/
structure AbstractPotentialBase where
  units : Nat
  potential_energy : Vec3 → ℚ → ℚ

/-- First value stored under key `k` in an insertion-ordered association list,
mirroring Python `dict` lookup (keys are unique in an actual `dict`). -/
def dictFind (k : String) : List (String × AbstractPotentialBase) →
    Option AbstractPotentialBase
  | [] => none
  | (k2, v) :: rest => if k2 = k then some v else dictFind k rest

/-- Python `dict` merge `a | b`: `a`'s keys in `a`'s insertion order, each
mapped to `b`'s value when `b` also has the key, followed by `b`'s keys not in
`a`, in `b`'s order. -/
def dictMerge (a b : List (String × AbstractPotentialBase)) :
    List (String × AbstractPotentialBase) :=
  a.map (fun kv => (kv.1, (dictFind kv.1 b).getD kv.2))
    ++ b.filter (fun kv => (dictFind kv.1 a).isNone)

/-- `CompositePotential` (galdynamix `composite.py`): an immutable ordered
mapping `_data` from component name to sub-potential, plus the unit system
resolved by `__post_init__`. -/
structure CompositePotential where
  _data : List (String × AbstractPotentialBase)
  units : Nat

/-- `CompositePotential.__init__` + `__post_init__`: take
`units = next(iter(self.values())).units` (raising `StopIteration` on an empty
mapping), and raise `ValueError` unless every sub-potential has that unit
system. -/
def CompositePotential.make :
    List (String × AbstractPotentialBase) → Except Err CompositePotential
  | [] => .error .stopIteration
  | kv0 :: rest =>
    if (kv0 :: rest).all (fun kv => decide (kv.2.units = kv0.2.units)) then
      .ok ⟨kv0 :: rest, kv0.2.units⟩
    else
      .error (.configurationError "all potentials must have the same unit system")

/-- `CompositePotential.potential_energy`:
`xp.sum(xp.array([p.potential_energy(q, t) for p in self.values()]))`. -/
def CompositePotential.potential_energy (c : CompositePotential)
    (q : Vec3) (t : ℚ) : ℚ :=
  (c._data.map (fun kv => kv.2.potential_energy q t)).sum

/-- The right operand of `__or__` / `__ror__` / `__add__`: a composite
potential, a non-composite potential, or something that is not a potential at
all (the `isinstance` guard's failing case). -/
inductive PotOperand where
  | comp : CompositePotential → PotOperand
  | base : AbstractPotentialBase → PotOperand
  | notAPotential : PotOperand

/-- `CompositePotential.__or__`.  `none` embeds `NotImplemented`.  A
non-composite operand is wrapped as `{str(uuid.uuid4()): other}`; the freshly
generated random key is passed explicitly as `fresh` (theorems assume, as the
source intends, that it collides with no existing key). -/
def CompositePotential.op_or (self : CompositePotential) (other : PotOperand)
    (fresh : String) : Option (Except Err CompositePotential) :=
  match other with
  | .notAPotential => none
  | .comp o => some (CompositePotential.make (dictMerge self._data o._data))
  | .base p => some (CompositePotential.make (dictMerge self._data [(fresh, p)]))

/-- `CompositePotential.__ror__`: the mirrored merge, `other | self._data`. -/
def CompositePotential.op_ror (self : CompositePotential) (other : PotOperand)
    (fresh : String) : Option (Except Err CompositePotential) :=
  match other with
  | .notAPotential => none
  | .comp o => some (CompositePotential.make (dictMerge o._data self._data))
  | .base p => some (CompositePotential.make (dictMerge [(fresh, p)] self._data))

/-- `CompositePotential.__add__` is defined as `self | other`. -/
def CompositePotential.op_add (self : CompositePotential) (other : PotOperand)
    (fresh : String) : Option (Except Err CompositePotential) :=
  self.op_or other fresh

/-- Component keys in insertion order. -/
def dictKeys (l : List (String × AbstractPotentialBase)) : List String :=
  l.map Prod.fst

/-- No key of `a` occurs in `b` and vice versa. -/
def DisjointKeys (a b : List (String × AbstractPotentialBase)) : Prop :=
  ∀ k, dictFind k a = none ∨ dictFind k b = none

-- ===== helper lemmas on dictionaries =====

theorem make_ok_data {d : List (String × AbstractPotentialBase)}
    {c : CompositePotential} (h : CompositePotential.make d = .ok c) :
    c._data = d := by
  cases d with
  | nil => exact absurd h (by simp [CompositePotential.make])
  | cons kv0 rest =>
    simp only [CompositePotential.make] at h
    by_cases hall :
        (kv0 :: rest).all (fun kv => decide (kv.2.units = kv0.2.units))
    · rw [if_pos hall] at h
      cases h
      rfl
    · rw [if_neg hall] at h
      exact absurd h (by simp)

theorem make_ok_units {d : List (String × AbstractPotentialBase)}
    {kv0 : String × AbstractPotentialBase} {c : CompositePotential}
    (hd : d.head? = some kv0) (h : CompositePotential.make d = .ok c) :
    c.units = kv0.2.units := by
  cases d with
  | nil => exact absurd h (by simp [CompositePotential.make])
  | cons kv1 rest =>
    have hkv : kv1 = kv0 := by
      simpa using hd
    subst hkv
    simp only [CompositePotential.make] at h
    by_cases hall :
        (kv1 :: rest).all (fun kv => decide (kv.2.units = kv1.2.units))
    · rw [if_pos hall] at h
      cases h
      rfl
    · rw [if_neg hall] at h
      exact absurd h (by simp)

theorem make_mismatch_error {d : List (String × AbstractPotentialBase)}
    {kv0 : String × AbstractPotentialBase} (hd : d.head? = some kv0)
    (h : ∃ kv ∈ d, kv.2.units ≠ kv0.2.units) :
    CompositePotential.make d =
      .error (.configurationError "all potentials must have the same unit system") := by
  cases d with
  | nil => simp at hd
  | cons kv1 rest =>
    have hkv : kv1 = kv0 := by
      simpa using hd
    subst hkv
    simp only [CompositePotential.make]
    rw [if_neg]
    intro hall
    obtain ⟨kv, hmem, hne⟩ := h
    have := List.all_eq_true.mp hall kv hmem
    exact hne (of_decide_eq_true this)

theorem dictFind_isSome_of_mem {kv : String × AbstractPotentialBase}
    {a : List (String × AbstractPotentialBase)} (h : kv ∈ a) :
    (dictFind kv.1 a).isSome := by
  induction a with
  | nil => cases h
  | cons hd tl ih =>
    rcases List.mem_cons.mp h with heq | hmem
    · subst heq
      simp [dictFind]
    · unfold dictFind
      by_cases hk : hd.1 = kv.1
      · simp [hk]
      · simp only [hk, if_false]
        exact ih hmem

theorem map_override_eq_self {a b : List (String × AbstractPotentialBase)}
    (h : ∀ kv ∈ a, dictFind kv.1 b = none) :
    a.map (fun kv => (kv.1, (dictFind kv.1 b).getD kv.2)) = a := by
  induction a with
  | nil => rfl
  | cons hd tl ih =>
    have hhd := h hd (List.mem_cons_self hd tl)
    simp only [List.map_cons, hhd, Option.getD_none]
    rw [ih (fun kv hkv => h kv (List.mem_cons_of_mem hd hkv))]

theorem filter_notin_eq_self {a b : List (String × AbstractPotentialBase)}
    (h : ∀ kv ∈ b, dictFind kv.1 a = none) :
    b.filter (fun kv => (dictFind kv.1 a).isNone) = b := by
  apply List.filter_eq_self.mpr
  intro kv hkv
  simp [h kv hkv]

theorem dictMerge_disjoint {a b : List (String × AbstractPotentialBase)}
    (h : DisjointKeys a b) : dictMerge a b = a ++ b := by
  unfold dictMerge
  have ha : ∀ kv ∈ a, dictFind kv.1 b = none := by
    intro kv hkv
    rcases h kv.1 with hn | hn
    · have := dictFind_isSome_of_mem hkv
      rw [hn] at this
      cases this
    · exact hn
  have hb : ∀ kv ∈ b, dictFind kv.1 a = none := by
    intro kv hkv
    rcases h kv.1 with hn | hn
    · exact hn
    · have := dictFind_isSome_of_mem hkv
      rw [hn] at this
      cases this
  rw [map_override_eq_self ha, filter_notin_eq_self hb]

theorem DisjointKeys.symm {a b : List (String × AbstractPotentialBase)}
    (h : DisjointKeys a b) : DisjointKeys b a :=
  fun k => (h k).symm

theorem disjoint_single {a : List (String × AbstractPotentialBase)}
    {k2 : String} {p2 : AbstractPotentialBase} (h : dictFind k2 a = none) :
    DisjointKeys a [(k2, p2)] := by
  intro k
  by_cases hk : k2 = k
  · subst hk
    left
    exact h
  · right
    simp [dictFind, hk]

theorem disjoint_singletons {k1 k2 : String} {p1 p2 : AbstractPotentialBase}
    (h : k1 ≠ k2) : DisjointKeys [(k1, p1)] [(k2, p2)] := by
  intro k
  by_cases hk : k1 = k
  · subst hk
    right
    have h2 : ¬ k2 = k1 := fun hh => h hh.symm
    simp [dictFind, h2]
  · left
    simp [dictFind, hk]

theorem dictFind_mapOverride {a b tail : List (String × AbstractPotentialBase)}
    {k : String} {v : AbstractPotentialBase}
    (ha : (dictFind k a).isSome) (hb : dictFind k b = some v) :
    dictFind k (a.map (fun kv => (kv.1, (dictFind kv.1 b).getD kv.2)) ++ tail)
      = some v := by
  induction a with
  | nil => cases ha
  | cons hd tl ih =>
    by_cases hk : hd.1 = k
    · simp only [List.map_cons, List.cons_append, dictFind, hk, if_pos]
      rw [hb]
      rfl
    · simp only [List.map_cons, List.cons_append, dictFind, hk, if_false]
      apply ih
      unfold dictFind at ha
      simpa [hk] using ha

theorem filter_isSome_isNone_length
    (b a : List (String × AbstractPotentialBase)) :
    (b.filter (fun kv => (dictFind kv.1 a).isSome)).length
      + (b.filter (fun kv => (dictFind kv.1 a).isNone)).length = b.length := by
  induction b with
  | nil => rfl
  | cons hd tl ih =>
    cases hfind : dictFind hd.1 a with
    | none => simp [List.filter_cons, hfind]; omega
    | some w => simp [List.filter_cons, hfind]; omega

theorem op_or_comp_ok {A B C : CompositePotential} {fresh : String}
    (hok : A.op_or (PotOperand.comp B) fresh = some (Except.ok C)) :
    C._data = dictMerge A._data B._data := by
  have hC : CompositePotential.make (dictMerge A._data B._data) = Except.ok C := by
    simpa [CompositePotential.op_or] using hok
  exact make_ok_data hC

theorem op_ror_comp_ok {A B C : CompositePotential} {fresh : String}
    (hok : A.op_ror (PotOperand.comp B) fresh = some (Except.ok C)) :
    C._data = dictMerge B._data A._data := by
  have hC : CompositePotential.make (dictMerge B._data A._data) = Except.ok C := by
    simpa [CompositePotential.op_ror] using hok
  exact make_ok_data hC

theorem op_or_base_ok {A C : CompositePotential} {P : AbstractPotentialBase}
    {fresh : String}
    (hok : A.op_or (PotOperand.base P) fresh = some (Except.ok C)) :
    C._data = dictMerge A._data [(fresh, P)] := by
  have hC : CompositePotential.make (dictMerge A._data [(fresh, P)])
      = Except.ok C := by
    simpa [CompositePotential.op_or] using hok
  exact make_ok_data hC

-- ===== concrete potentials used by witnesses and counterexamples =====

/-- A sub-potential with unit-system tag 0 and constant energy 1. -/
def potE1 : AbstractPotentialBase := ⟨0, fun _ _ => 1⟩

/-- A sub-potential with unit-system tag 0 and constant energy 2. -/
def potE2 : AbstractPotentialBase := ⟨0, fun _ _ => 2⟩

/-- A sub-potential with a different unit-system tag 1. -/
def potU1 : AbstractPotentialBase := ⟨1, fun _ _ => 0⟩

/-- Composite `{"a": potE1}`. -/
def cexA : CompositePotential := ⟨[("a", potE1)], 0⟩

/-- Composite `{"a": potE2}`: same key `"a"` as `cexA`. -/
def cexB : CompositePotential := ⟨[("a", potE2)], 0⟩

/-- The merge of `cexA` and `cexB`: the shared key collapses. -/
def cexAB : CompositePotential := ⟨[("a", potE2)], 0⟩

/-- Composite `{"b": potE2}`: key disjoint from `cexA`. -/
def cexD : CompositePotential := ⟨[("b", potE2)], 0⟩

/-- The merge of `cexA` and `cexD`. -/
def cexAD : CompositePotential := ⟨[("a", potE1), ("b", potE2)], 0⟩

/-- The origin, as a sample evaluation point. -/
def q0 : Vec3 := ((0 : ℚ), (0 : ℚ), (0 : ℚ))

-- ===== claim theorems: composite potentials =====

/-- C4: constructing a `CompositePotential` from sub-potentials that do not all
share one unit system fails with the spec's `ConfigurationError` (the code's
`ValueError`); when construction succeeds, the composite's unit system equals
that of the first sub-potential in insertion order. -/
theorem composite_units_invariant (d : List (String × AbstractPotentialBase))
    (kv0 : String × AbstractPotentialBase) (hd : d.head? = some kv0) :
    ((∃ kv ∈ d, kv.2.units ≠ kv0.2.units) →
      CompositePotential.make d =
        .error (.configurationError "all potentials must have the same unit system"))
  ∧ (∀ c, CompositePotential.make d = .ok c → c.units = kv0.2.units) :=
  ⟨fun h => make_mismatch_error hd h, fun _ h => make_ok_units hd h⟩

/-- C4 witness: `{"a": potE1, "b": potU1}` (unit tags 0 and 1) is rejected, and
the successful `{"a": potE1}` inherits unit tag `potE1.units`. -/
theorem composite_units_invariant_witness :
    (CompositePotential.make [("a", potE1), ("b", potU1)] =
      .error (.configurationError "all potentials must have the same unit system"))
  ∧ (⟨[("a", potE1)], 0⟩ : CompositePotential).units = potE1.units :=
  ⟨(composite_units_invariant [("a", potE1), ("b", potU1)] ("a", potE1) rfl).1
      ⟨("b", potU1), by simp, by decide⟩,
   (composite_units_invariant [("a", potE1)] ("a", potE1) rfl).2
      ⟨[("a", potE1)], 0⟩ rfl⟩

/-- C5 counterexample: for the composites `cexA = {"a": potE1}` and
`cexB = {"a": potE2}` (identical unit systems, shared key `"a"`), `cexA + cexB`
succeeds but its energy at the origin is 2, not the sum 1 + 2 = 3: the claim's
unrestricted additivity is false. -/
theorem composite_add_energy_counterexample :
    cexA.op_add (PotOperand.comp cexB) "u" = some (Except.ok cexAB)
  ∧ cexA.units = cexB.units
  ∧ cexAB.potential_energy q0 0 = 2
  ∧ cexA.potential_energy q0 0 + cexB.potential_energy q0 0 = 3
  ∧ cexAB.potential_energy q0 0
      ≠ cexA.potential_energy q0 0 + cexB.potential_energy q0 0 := by
  refine ⟨rfl, rfl, ?_, ?_, ?_⟩
  · show (2 : ℚ) + 0 = 2
    norm_num
  · show (1 : ℚ) + 0 + (2 + 0) = 3
    norm_num
  · show (2 : ℚ) + 0 ≠ 1 + 0 + (2 + 0)
    norm_num

/-- C5 (amended): when the two composites' component keys are disjoint — in
particular whenever the right operand is non-composite and gets a fresh
UUID key — `(A + B).potential_energy(q, t)` equals
`A.potential_energy(q, t) + B.potential_energy(q, t)` (exactly, in the
rational-arithmetic embedding). -/
theorem composite_add_energy (A B : CompositePotential) (fresh : String)
    (hdisj : DisjointKeys A._data B._data) (C : CompositePotential)
    (hok : A.op_add (PotOperand.comp B) fresh = some (Except.ok C))
    (q : Vec3) (t : ℚ) :
    C.potential_energy q t = A.potential_energy q t + B.potential_energy q t := by
  have hdata : C._data = A._data ++ B._data := by
    rw [op_or_comp_ok hok]
    exact dictMerge_disjoint hdisj
  unfold CompositePotential.potential_energy
  rw [hdata, List.map_append, List.sum_append]

/-- C5 witness: for the key-disjoint `cexA = {"a": potE1}` and
`cexD = {"b": potE2}`, the energy of `cexA + cexD` at the origin is the sum of
the two energies. -/
theorem composite_add_energy_witness :
    cexAD.potential_energy q0 0 =
      cexA.potential_energy q0 0 + cexD.potential_energy q0 0 :=
  composite_add_energy cexA cexD "u" (disjoint_singletons (by decide)) cexAD
    rfl q0 0

/-- C9: for composites with disjoint component keys, `A | B` lists A's
components (in insertion order) before B's and `B | A` (through either
`__or__` on `B` or `__ror__` on `A`) lists B's before A's; a non-composite
operand is appended under the freshly generated key; and both `__or__` and
`__ror__` return `NotImplemented` (embedded as `none`) when the other operand
is not a potential. -/
theorem composite_or_ordering (A B : CompositePotential) (fresh : String)
    (hdisj : DisjointKeys A._data B._data) :
    (∀ C, A.op_or (PotOperand.comp B) fresh = some (Except.ok C) →
        C._data = A._data ++ B._data)
  ∧ (∀ C, B.op_or (PotOperand.comp A) fresh = some (Except.ok C) →
        C._data = B._data ++ A._data)
  ∧ (∀ C, A.op_ror (PotOperand.comp B) fresh = some (Except.ok C) →
        C._data = B._data ++ A._data)
  ∧ (∀ P C, dictFind fresh A._data = none →
        A.op_or (PotOperand.base P) fresh = some (Except.ok C) →
        C._data = A._data ++ [(fresh, P)])
  ∧ A.op_or PotOperand.notAPotential fresh = none
  ∧ A.op_ror PotOperand.notAPotential fresh = none := by
  refine ⟨?_, ?_, ?_, ?_, rfl, rfl⟩
  · intro C hok
    rw [op_or_comp_ok hok]
    exact dictMerge_disjoint hdisj
  · intro C hok
    rw [op_or_comp_ok hok]
    exact dictMerge_disjoint hdisj.symm
  · intro C hok
    rw [op_ror_comp_ok hok]
    exact dictMerge_disjoint hdisj.symm
  · intro P C hfresh hok
    rw [op_or_base_ok hok]
    exact dictMerge_disjoint (disjoint_single hfresh)

/-- C9 witness: with `cexA = {"a": potE1}` and `cexD = {"b": potE2}`,
`cexA | cexD` lists `"a"` then `"b"`, `cexD | cexA` the reverse, and a fresh
key is appended for a base operand. -/
theorem composite_or_ordering_witness :
    cexAD._data = cexA._data ++ cexD._data
  ∧ (⟨[("b", potE2), ("a", potE1)], 0⟩ : CompositePotential)._data
      = cexD._data ++ cexA._data
  ∧ (⟨[("a", potE1), ("u", potE2)], 0⟩ : CompositePotential)._data
      = cexA._data ++ [("u", potE2)]
  ∧ cexA.op_or PotOperand.notAPotential "u" = none := by
  refine ⟨?_, ?_, ?_, ?_⟩
  · exact (composite_or_ordering cexA cexD "u"
      (disjoint_singletons (by decide))).1 cexAD rfl
  · exact (composite_or_ordering cexA cexD "u"
      (disjoint_singletons (by decide))).2.1 ⟨[("b", potE2), ("a", potE1)], 0⟩ rfl
  · exact (composite_or_ordering cexA cexD "u"
      (disjoint_singletons (by decide))).2.2.2.1 potE2
      ⟨[("a", potE1), ("u", potE2)], 0⟩ rfl rfl
  · exact (composite_or_ordering cexA cexD "u"
      (disjoint_singletons (by decide))).2.2.2.2.1

/-- C10: when `A` and `B` share a component key `k`, `A | B` maps `k` to `B`'s
sub-potential, keeps `A`'s key order followed by `B`'s non-shared keys (so the
override sits at `A`'s insertion position), and its component count is
`len(A) + len(B)` minus the number of `B`-entries whose key already occurs in
`A` (the shared keys, when each mapping's keys are unique). -/
theorem composite_or_shared_key (A B : CompositePotential) (fresh k : String)
    (v : AbstractPotentialBase)
    (hkA : (dictFind k A._data).isSome = true) (hkB : dictFind k B._data = some v)
    (C : CompositePotential)
    (hok : A.op_or (PotOperand.comp B) fresh = some (Except.ok C)) :
    dictFind k C._data = some v
  ∧ dictKeys C._data = dictKeys A._data
      ++ dictKeys (B._data.filter (fun kv => (dictFind kv.1 A._data).isNone))
  ∧ C._data.length
      + (B._data.filter (fun kv => (dictFind kv.1 A._data).isSome)).length
    = A._data.length + B._data.length := by
  have hdata := op_or_comp_ok hok
  refine ⟨?_, ?_, ?_⟩
  · rw [hdata]
    exact dictFind_mapOverride hkA hkB
  · rw [hdata]
    unfold dictMerge dictKeys
    rw [List.map_append, List.map_map]
    rfl
  · rw [hdata]
    unfold dictMerge
    rw [List.length_append, List.length_map]
    have := filter_isSome_isNone_length B._data A._data
    omega

/-- C10 witness: `cexA = {"a": potE1}` and `cexB = {"a": potE2}` share key
`"a"`; `cexA | cexB` maps `"a"` to `potE2`, keeps key list `["a"]`, and has
1 = 1 + 1 - 1 components. -/
theorem composite_or_shared_key_witness :
    dictFind "a" cexAB._data = some potE2
  ∧ dictKeys cexAB._data = dictKeys cexA._data
      ++ dictKeys (cexB._data.filter (fun kv => (dictFind kv.1 cexA._data).isNone))
  ∧ cexAB._data.length
      + (cexB._data.filter (fun kv => (dictFind kv.1 cexA._data).isSome)).length
    = cexA._data.length + cexB._data.length :=
  composite_or_shared_key cexA cexB "u" "a" potE2 rfl rfl cexAB rfl

-- ===== parameters (galax params/core.py and galdynamix param/core.py) =====

/-- A JAX array abstracted to its shape and its flattened numeric data. -/
structure JaxArray where
  shape : List Nat
  data : List ℚ
  deriving DecidableEq, Repr

/-- `ndim`: the rank of the array. -/
def JaxArray.ndim (a : JaxArray) : Nat := a.shape.length

namespace GalaxPkg

/-- Modelled from the spec: `expand_batch_dims` (from `galax.utils._shape`,
which is not part of the excerpt) performs "dimension expansion by
appending/prepending singleton axes to match `t`'s rank without changing
numeric values": it prepends `ndim` singleton batch axes, leaving the data
untouched. -/
def expand_batch_dims (a : JaxArray) (ndim : Nat) : JaxArray :=
  ⟨List.replicate ndim 1 ++ a.shape, a.data⟩

/-- `ConstantParameter` (galax `params/core.py`): a time-independent value. -/
structure ConstantParameter where
  value : JaxArray
  deriving DecidableEq, Repr

/-- `ConstantParameter.__call__` (galax):
`return expand_batch_dims(self.value, t.ndim)`. -/
def ConstantParameter.call (p : ConstantParameter) (t : JaxArray) : JaxArray :=
  expand_batch_dims p.value t.ndim

end GalaxPkg

namespace Galdynamix

/-- `ConstantParameter` (galdynamix `param/core.py`): a time-independent
value. -/
structure ConstantParameter where
  value : JaxArray
  deriving DecidableEq, Repr

/-- `ConstantParameter.__call__` (galdynamix): `return self.value` — the time
argument is ignored entirely and no shape expansion is performed. -/
def ConstantParameter.call (p : ConstantParameter) (_t : JaxArray) : JaxArray :=
  p.value

end Galdynamix

/-- C8 counterexample: the galdynamix `ConstantParameter` (one of the claim's
two cited implementations) with scalar value 5, called at a batched time of
shape `[2]`, returns the stored value entirely unchanged: rank 0, with no
singleton axes appended or prepended to match `t`'s rank 1, refuting the
claimed broadcast behavior. -/
theorem constant_parameter_counterexample :
    Galdynamix.ConstantParameter.call ⟨⟨[], [5]⟩⟩ ⟨[2], [0, 0]⟩ = ⟨[], [5]⟩
  ∧ (Galdynamix.ConstantParameter.call ⟨⟨[], [5]⟩⟩ ⟨[2], [0, 0]⟩).ndim
      ≠ (⟨[2], [0, 0]⟩ : JaxArray).ndim :=
  ⟨rfl, by decide⟩

/-- C8 (amended): the galax `ConstantParameter` returns its stored value with
`t.ndim` singleton axes prepended — numeric data unchanged and batch rank
raised by `t`'s rank — while the legacy galdynamix `ConstantParameter` returns
the stored value unchanged, ignoring `t` entirely. -/
theorem constant_parameter_broadcast (v t : JaxArray) :
    (GalaxPkg.ConstantParameter.call ⟨v⟩ t).data = v.data
  ∧ (GalaxPkg.ConstantParameter.call ⟨v⟩ t).shape
      = List.replicate t.ndim 1 ++ v.shape
  ∧ (GalaxPkg.ConstantParameter.call ⟨v⟩ t).ndim = t.ndim + v.ndim
  ∧ Galdynamix.ConstantParameter.call ⟨v⟩ t = v := by
  refine ⟨rfl, rfl, ?_, rfl⟩
  simp [GalaxPkg.ConstantParameter.call, GalaxPkg.expand_batch_dims,
    JaxArray.ndim]

-- ===== mock-stream generator (mockstream_generator.py) =====

/-- JAX gather semantics for a traced index under `jit`: out-of-range indices
are clamped into range. -/
def jaxNth (xs : List ℚ) (i : Nat) : ℚ :=
  xs.getD (min i (xs.length - 1)) 0

/-- Row gather (`x[i, :]`) with JAX's index clamping. -/
def jaxRow (xs : List (List ℚ)) (i : Nat) : List ℚ :=
  xs.getD (min i (xs.length - 1)) []

/-- `jax.lax.scan f init xs`: thread a carry through `xs`, collecting the
per-step outputs. -/
def lax_scan {C X Y : Type} (f : C → X → C × Y) : C → List X → C × List Y
  | c, [] => (c, [])
  | c, x :: xs =>
    let s := f c x
    let r := lax_scan f s.1 xs
    (r.1, s.2 :: r.2)

/-- `MockStreamGenerator`, with
`integrate_orbit(self.potential, ics, [t0, t1], integrator=self.stream_integrator).w()[-1]`
— the only way `_run_scan` / `_run_vmap` consume the potential and the stream
integrator, both of which live outside the excerpt — abstracted as the
black-box final-state map `integrate_final ics t0 t1`. -/
structure MockStreamGenerator where
  integrate_final : List ℚ → ℚ → ℚ → List ℚ

/-- `ts[-1] + 1e-3`: the final integration time with the source's epsilon
bump past the last stripping time. -/
def bumpFinal (ts : List ℚ) : ℚ :=
  jaxNth ts (ts.length - 1) + 1 / 1000

/-- The scan body `one_pt_intg` of `_run_scan`: the carry
`(i, w0_lead[i], w0_trail[i])` integrates the pair released at step `i` over
`[ts[i], t_f]` and advances to the (clamped) next row. -/
def one_pt_intg (g : MockStreamGenerator) (ts : List ℚ) (t_f : ℚ)
    (w0_lead w0_trail : List (List ℚ))
    (carry : Nat × List ℚ × List ℚ) (_pt : Nat) :
    (Nat × List ℚ × List ℚ) × (List ℚ × List ℚ) :=
  let i := carry.1
  let w_l := g.integrate_final carry.2.1 (jaxNth ts i) t_f
  let w_t := g.integrate_final carry.2.2 (jaxNth ts i) t_f
  ((i + 1, jaxRow w0_lead (i + 1), jaxRow w0_trail (i + 1)), (w_l, w_t))

/-- `MockStreamGenerator._run_scan`: `jax.lax.scan` of `one_pt_intg` over
`pt_ids = arange(len(w0_lead))`, returning the stacked leading and trailing
final states. -/
def MockStreamGenerator.run_scan (g : MockStreamGenerator) (ts : List ℚ)
    (w0_lead w0_trail : List (List ℚ)) : List (List ℚ) × List (List ℚ) :=
  ((lax_scan (one_pt_intg g ts (bumpFinal ts) w0_lead w0_trail)
      (0, jaxRow w0_lead 0, jaxRow w0_trail 0)
      (List.range w0_lead.length)).2.map Prod.fst,
   (lax_scan (one_pt_intg g ts (bumpFinal ts) w0_lead w0_trail)
      (0, jaxRow w0_lead 0, jaxRow w0_trail 0)
      (List.range w0_lead.length)).2.map Prod.snd)

/-- `MockStreamGenerator._run_vmap`: `jax.vmap` of the per-particle
integration over `(pt_ids, w0_lead, w0_trail)` (which JAX requires to share
their leading axis length). -/
def MockStreamGenerator.run_vmap (g : MockStreamGenerator) (ts : List ℚ)
    (w0_lead w0_trail : List (List ℚ)) : List (List ℚ) × List (List ℚ) :=
  (((List.range w0_lead.length).map (fun i =>
      (g.integrate_final (jaxRow w0_lead i) (jaxNth ts i) (bumpFinal ts),
       g.integrate_final (jaxRow w0_trail i) (jaxNth ts i) (bumpFinal ts)))).map
        Prod.fst,
   ((List.range w0_lead.length).map (fun i =>
      (g.integrate_final (jaxRow w0_lead i) (jaxNth ts i) (bumpFinal ts),
       g.integrate_final (jaxRow w0_trail i) (jaxNth ts i) (bumpFinal ts)))).map
        Prod.snd)

theorem lax_scan_one_pt_outputs (g : MockStreamGenerator) (ts : List ℚ)
    (t_f : ℚ) (w0_lead w0_trail : List (List ℚ)) (l : List Nat) (k : Nat) :
    (lax_scan (one_pt_intg g ts t_f w0_lead w0_trail)
        (k, jaxRow w0_lead k, jaxRow w0_trail k) l).2
      = (List.range l.length).map (fun j =>
          (g.integrate_final (jaxRow w0_lead (k + j)) (jaxNth ts (k + j)) t_f,
           g.integrate_final (jaxRow w0_trail (k + j)) (jaxNth ts (k + j)) t_f)) := by
  induction l generalizing k with
  | nil => rfl
  | cons x xs ih =>
    simp only [lax_scan, one_pt_intg, List.length_cons,
      List.range_succ_eq_map, List.map_cons, List.map_map]
    rw [ih (k + 1)]
    refine congrArg₂ List.cons ?_ ?_
    · simp
    · apply List.map_congr_left
      intro j hjmem
      have hj : k + 1 + j = k + (j + 1) := by omega
      simp [Function.comp, hj]

/-- C1: for every abstracted integrator, stripping-time grid, and leading and
trailing initial-condition arrays of equal length, the sequential (`lax.scan`)
strategy and the batched (`vmap`) strategy of the mock-stream generator
produce identical leading-arm and trailing-arm state arrays — strategy choice
has no semantic effect (exact equality in the rational embedding, hence
trivially within ODE-solver tolerance). -/
theorem mockstream_strategy_equivalence (g : MockStreamGenerator) (ts : List ℚ)
    (w0_lead w0_trail : List (List ℚ))
    (_hlen : w0_trail.length = w0_lead.length) :
    g.run_scan ts w0_lead w0_trail = g.run_vmap ts w0_lead w0_trail := by
  unfold MockStreamGenerator.run_scan MockStreamGenerator.run_vmap
  rw [lax_scan_one_pt_outputs g ts (bumpFinal ts) w0_lead w0_trail
    (List.range w0_lead.length) 0]
  simp

/-- A concrete black-box "integrator" for the C1 witness: it records the
initial conditions and integration window. -/
def gWit : MockStreamGenerator := ⟨fun ics t0 t1 => t0 :: t1 :: ics⟩

/-- C1 witness: a concrete two-particle run where both strategies agree. -/
theorem mockstream_strategy_equivalence_witness :
    gWit.run_scan [0, 1] [[1, 0, 0, 0, 0, 0], [2, 0, 0, 0, 0, 0]]
        [[3, 0, 0, 0, 0, 0], [4, 0, 0, 0, 0, 0]]
      = gWit.run_vmap [0, 1] [[1, 0, 0, 0, 0, 0], [2, 0, 0, 0, 0, 0]]
        [[3, 0, 0, 0, 0, 0], [4, 0, 0, 0, 0, 0]] :=
  mockstream_strategy_equivalence gWit [0, 1]
    [[1, 0, 0, 0, 0, 0], [2, 0, 0, 0, 0, 0]]
    [[3, 0, 0, 0, 0, 0], [4, 0, 0, 0, 0, 0]] rfl

-- ===== output assembly of MockStreamGenerator.run =====

/-- Modelled from the spec: `interleave_concat` (from
`galax.dynamics._dynamics.mockstream.utils`, which is not part of the excerpt)
interleaves two equal-length arrays along the particle axis — output entry
`2k` is the first argument's entry `k` and entry `2k+1` the second argument's
entry `k` ("position 0 is a trailing particle, position 1 the corresponding
leading particle" for the source's call `interleave_concat(trail, lead, ...)`). -/
def interleave_concat {α : Type} (a b : List α) : List α :=
  (List.zip a b).flatMap (fun p => [p.1, p.2])

/-- `MockStream` (`mockstream/core.py`), as consumed by the constructor call in
`run`: positions `q`, velocities `p`, evaluation times `t`, and the
per-particle `release_time` array. -/
structure MockStream where
  q : List (List ℚ)
  p : List (List ℚ)
  t : List ℚ
  release_time : List ℚ
  deriving DecidableEq, Repr

/-- The output-assembly step of `MockStreamGenerator.run` (lines 200–223):
from the arm flags `df.lead` / `df.trail`, the integrated arm states
`lead_arm_w` / `trail_arm_w` (rows are 6-vectors; `w[:, 0:3]` is `take 3`,
`w[:, 3:6]` is `drop 3` then `take 3`), the evaluation-time array `t`, and
the two arms' release-time arrays, build the returned `MockStream`.  With both
arms, `q`/`p` interleave trailing before leading while `release_time`
interleaves `mock0_lead.release_time` before `mock0_trail.release_time`,
exactly as in the source; with neither arm, `ValueError` (the spec's
`ConfigurationError`) is raised. -/
def run_assemble (lead trail : Bool) (lead_arm_w trail_arm_w : List (List ℚ))
    (t lead_release trail_release : List ℚ) : Except Err MockStream :=
  if lead && trail then
    .ok ⟨interleave_concat (trail_arm_w.map (fun w => w.take 3))
           (lead_arm_w.map (fun w => w.take 3)),
         interleave_concat (trail_arm_w.map (fun w => (w.drop 3).take 3))
           (lead_arm_w.map (fun w => (w.drop 3).take 3)),
         interleave_concat t t,
         interleave_concat lead_release trail_release⟩
  else if lead then
    .ok ⟨lead_arm_w.map (fun w => w.take 3),
         lead_arm_w.map (fun w => (w.drop 3).take 3), t, lead_release⟩
  else if trail then
    .ok ⟨trail_arm_w.map (fun w => w.take 3),
         trail_arm_w.map (fun w => (w.drop 3).take 3), t, trail_release⟩
  else
    .error (.configurationError
      "You must generate either leading or trailing tails (or both!)")

theorem get?_eq_getD {α : Type} (l : List α) (d : α) (k : Nat)
    (h : k < l.length) : l.get? k = some (l.getD k d) := by
  induction l generalizing k with
  | nil => cases h
  | cons x xs ih =>
    cases k with
    | zero => rfl
    | succ n => exact ih n (by simpa using h)

theorem interleave_concat_get {α : Type} (a b : List α) (k : Nat)
    (hlen : a.length = b.length) (hk : k < a.length) :
    (interleave_concat a b).get? (2 * k) = a.get? k
  ∧ (interleave_concat a b).get? (2 * k + 1) = b.get? k := by
  induction k generalizing a b with
  | zero =>
    cases a with
    | nil => cases hk
    | cons x xs =>
      cases b with
      | nil => cases hlen
      | cons y ys => exact ⟨rfl, rfl⟩
  | succ n ih =>
    cases a with
    | nil => cases hk
    | cons x xs =>
      cases b with
      | nil => cases hlen
      | cons y ys =>
        have hlen2 : xs.length = ys.length := by simpa using hlen
        have hk2 : n < xs.length := by
          simpa [Nat.succ_lt_succ_iff] using hk
        have hmul : 2 * (n + 1) = 2 * n + 1 + 1 := by omega
        have := ih xs ys hlen2 hk2
        constructor
        · rw [hmul]
          simpa [interleave_concat, List.zip]  using this.1
        · rw [hmul]
          simpa [interleave_concat, List.zip] using this.2

theorem run_assemble_both_ok {lead_arm_w trail_arm_w : List (List ℚ)}
    {t lead_release trail_release : List ℚ} {ms : MockStream}
    (hok : run_assemble true true lead_arm_w trail_arm_w t lead_release
        trail_release = .ok ms) :
    ms = ⟨interleave_concat (trail_arm_w.map (fun w => w.take 3))
            (lead_arm_w.map (fun w => w.take 3)),
          interleave_concat (trail_arm_w.map (fun w => (w.drop 3).take 3))
            (lead_arm_w.map (fun w => (w.drop 3).take 3)),
          interleave_concat t t,
          interleave_concat lead_release trail_release⟩ := by
  simp only [run_assemble, Bool.and_self, if_true] at hok
  exact (Except.ok.injEq _ _ |>.mp hok).symm

/-- C2: when both arms are enabled, the assembled stream's positions and
velocities are interleaved pairwise — combined entry `2k` is the trailing
particle of stripping-time index `k` (its `q` is `w[0:3]`, its `p` is
`w[3:6]`) and entry `2k+1` the corresponding leading particle. -/
theorem mockstream_interleaving (lead_arm_w trail_arm_w : List (List ℚ))
    (t lead_release trail_release : List ℚ) (ms : MockStream) (k : Nat)
    (hlen : trail_arm_w.length = lead_arm_w.length)
    (hk : k < trail_arm_w.length)
    (hok : run_assemble true true lead_arm_w trail_arm_w t lead_release
        trail_release = .ok ms) :
    ms.q.get? (2 * k) = some ((trail_arm_w.getD k []).take 3)
  ∧ ms.q.get? (2 * k + 1) = some ((lead_arm_w.getD k []).take 3)
  ∧ ms.p.get? (2 * k) = some (((trail_arm_w.getD k []).drop 3).take 3)
  ∧ ms.p.get? (2 * k + 1) = some (((lead_arm_w.getD k []).drop 3).take 3) := by
  rw [run_assemble_both_ok hok]
  dsimp only
  have hlq : (trail_arm_w.map (fun w => w.take 3)).length
      = (lead_arm_w.map (fun w => w.take 3)).length := by
    simpa using hlen
  have hkq : k < (trail_arm_w.map (fun w => w.take 3)).length := by
    simpa using hk
  have hq := interleave_concat_get _ _ k hlq hkq
  have hlp : (trail_arm_w.map (fun w => (w.drop 3).take 3)).length
      = (lead_arm_w.map (fun w => (w.drop 3).take 3)).length := by
    simpa using hlen
  have hkp : k < (trail_arm_w.map (fun w => (w.drop 3).take 3)).length := by
    simpa using hk
  have hp := interleave_concat_get _ _ k hlp hkp
  have hkl : k < lead_arm_w.length := hlen ▸ hk
  refine ⟨?_, ?_, ?_, ?_⟩
  · rw [hq.1, List.get?_map, get?_eq_getD trail_arm_w [] k hk]
    rfl
  · rw [hq.2, List.get?_map, get?_eq_getD lead_arm_w [] k hkl]
    rfl
  · rw [hp.1, List.get?_map, get?_eq_getD trail_arm_w [] k hk]
    rfl
  · rw [hp.2, List.get?_map, get?_eq_getD lead_arm_w [] k hkl]
    rfl

/-- The assembled stream for one leading particle `[7..12]` and one trailing
particle `[1..6]`, evaluation time 0, leading release time 50 and trailing
release time 60. -/
def msWit : MockStream :=
  ⟨[[1, 2, 3], [7, 8, 9]], [[4, 5, 6], [10, 11, 12]], [0, 0], [50, 60]⟩

/-- C2 witness: in the concrete assembly `msWit`, entry 0 is the trailing
particle's position/velocity and entry 1 the leading one's. -/
theorem mockstream_interleaving_witness :
    msWit.q.get? 0 = some [1, 2, 3]
  ∧ msWit.q.get? 1 = some [7, 8, 9]
  ∧ msWit.p.get? 0 = some [4, 5, 6]
  ∧ msWit.p.get? 1 = some [10, 11, 12] := by
  have h := mockstream_interleaving [[7, 8, 9, 10, 11, 12]]
    [[1, 2, 3, 4, 5, 6]] [0] [50] [60] msWit 0 rfl (by decide) rfl
  simpa using h

/-- C3 counterexample: with leading release time 50 and trailing release time
60, the assembled release-time array is `[50, 60]`: entry `2k = 0` holds the
*leading* particle's release time 50, not the trailing particle's 60 that the
claim requires — the source passes `mock0_lead.release_time` as the first
argument of `interleave_concat`, opposite to the `q`/`p` interleaving order. -/
theorem release_time_order_counterexample :
    run_assemble true true [[7, 8, 9, 10, 11, 12]] [[1, 2, 3, 4, 5, 6]] [0]
        [50] [60] = .ok msWit
  ∧ msWit.release_time.get? 0 = some 50
  ∧ (50 : ℚ) ≠ 60 :=
  ⟨rfl, rfl, by norm_num⟩

/-- C3 (amended): when both arms are enabled the release-time array is
interleaved in the order *leading first*: entry `2k` is the release time of
the leading particle of stripping index `k` and entry `2k+1` that of the
trailing particle.  (Whenever the sampler gives both arms identical
release times per stripping time — as the upstream distribution functions do —
the array values coincide with the claimed trailing-first ordering.) -/
theorem release_time_order (lead_arm_w trail_arm_w : List (List ℚ))
    (t lead_release trail_release : List ℚ) (ms : MockStream) (k : Nat)
    (hlen : lead_release.length = trail_release.length)
    (hk : k < lead_release.length)
    (hok : run_assemble true true lead_arm_w trail_arm_w t lead_release
        trail_release = .ok ms) :
    ms.release_time.get? (2 * k) = some (lead_release.getD k 0)
  ∧ ms.release_time.get? (2 * k + 1) = some (trail_release.getD k 0) := by
  rw [run_assemble_both_ok hok]
  dsimp only
  have h := interleave_concat_get lead_release trail_release k hlen hk
  have hkt : k < trail_release.length := hlen ▸ hk
  constructor
  · rw [h.1, get?_eq_getD lead_release 0 k hk]
  · rw [h.2, get?_eq_getD trail_release 0 k hkt]

/-- C3 (amended) witness: in `msWit`, release-time entry 0 is the leading
particle's 50 and entry 1 the trailing particle's 60. -/
theorem release_time_order_witness :
    msWit.release_time.get? 0 = some 50
  ∧ msWit.release_time.get? 1 = some 60 := by
  have h := release_time_order [[7, 8, 9, 10, 11, 12]] [[1, 2, 3, 4, 5, 6]]
    [0] [50] [60] msWit 0 rfl (by decide) rfl
  simpa using h

/-- C7: the arm-assembly step of `run` raises the spec's `ConfigurationError`
(the source's `ValueError`) exactly when both arm flags are false; with
exactly one arm enabled it selects that arm's sliced states and release times
and succeeds. -/
theorem arm_flags_error (lead trail : Bool)
    (lead_arm_w trail_arm_w : List (List ℚ))
    (t lead_release trail_release : List ℚ) :
    (run_assemble lead trail lead_arm_w trail_arm_w t lead_release
          trail_release
        = .error (.configurationError
            "You must generate either leading or trailing tails (or both!)")
      ↔ lead = false ∧ trail = false)
  ∧ (lead = true → trail = false →
      run_assemble lead trail lead_arm_w trail_arm_w t lead_release
          trail_release
        = .ok ⟨lead_arm_w.map (fun w => w.take 3),
            lead_arm_w.map (fun w => (w.drop 3).take 3), t, lead_release⟩)
  ∧ (lead = false → trail = true →
      run_assemble lead trail lead_arm_w trail_arm_w t lead_release
          trail_release
        = .ok ⟨trail_arm_w.map (fun w => w.take 3),
            trail_arm_w.map (fun w => (w.drop 3).take 3), t, trail_release⟩)
  ∧ ((lead || trail) = true →
      ∃ ms, run_assemble lead trail lead_arm_w trail_arm_w t lead_release
          trail_release = .ok ms) := by
  cases lead <;> cases trail <;>
    simp [run_assemble]

/-- C7 witness: the empty-flags call fails with the configuration error, and a
lead-only call returns the leading arm's slices. -/
theorem arm_flags_error_witness :
    run_assemble false false [] [] [] [] []
      = .error (.configurationError
          "You must generate either leading or trailing tails (or both!)")
  ∧ run_assemble true false [[1, 2, 3, 4, 5, 6]] [] [0] [7] []
      = .ok ⟨[[1, 2, 3]], [[4, 5, 6]], [0], [7]⟩ := by
  refine ⟨(arm_flags_error false false [] [] [] [] []).1.mpr ⟨rfl, rfl⟩, ?_⟩
  have h := (arm_flags_error true false [[1, 2, 3, 4, 5, 6]] [] [0] [7]
    []).2.1 rfl rfl
  exact h.trans (by rfl)

-- ===== time-grid handling of MockStreamGenerator.run =====

/-- Modelled from the spec: `cond_reverse(pred, ts)` (from
`galax.dynamics._dynamics.mockstream.utils`, which is not part of the excerpt)
reverses the grid when `pred` holds — "treat the supplied grid as given in
reverse-chronological order and reverse it before use". -/
def cond_reverse (pred : Bool) (ts : List ℚ) : List ℚ :=
  if pred then ts.reverse else ts

/-- The time array is monotonically increasing (non-decreasing). -/
def isSortedLE : List ℚ → Bool
  | [] => true
  | [_] => true
  | a :: b :: rest => decide (a ≤ b) && isSortedLE (b :: rest)

/-- The time array is monotonically decreasing (non-increasing). -/
def isSortedGE : List ℚ → Bool
  | [] => true
  | [_] => true
  | a :: b :: rest => decide (b ≤ a) && isSortedGE (b :: rest)

/-- Modelled from the spec: the integrator that `run` hands its oriented grid
to (`evaluate_orbit` and the `Integrator` implementations are not part of the
excerpt) supports monotonically increasing or decreasing time arrays and
treats a strictly non-monotonic one as a caller error `InvalidTimeGrid`
(spec §4.3). -/
def validate_time_grid (ts : List ℚ) : Except Err (List ℚ) :=
  if isSortedLE ts || isSortedGE ts then .ok ts else .error .invalidTimeGrid

/-- The time-grid handling of `MockStreamGenerator.run` (lines 179–187): the
grid is reversed when `ts[1] < ts[0]` and then used for integration, where
the (spec-modelled) integrator validates monotonicity. -/
def run_time_grid (ts : List ℚ) : Except Err (List ℚ) :=
  validate_time_grid (cond_reverse (decide (jaxNth ts 1 < jaxNth ts 0)) ts)

theorem isSortedLE_iff (l : List ℚ) :
    isSortedLE l = true ↔ l.Chain' (· ≤ ·) := by
  induction l with
  | nil => simp [isSortedLE]
  | cons a tl ih =>
    cases tl with
    | nil => simp [isSortedLE]
    | cons b rest =>
      rw [List.chain'_cons, ← ih]
      simp [isSortedLE]

theorem isSortedGE_iff (l : List ℚ) :
    isSortedGE l = true ↔ l.Chain' (fun x y => y ≤ x) := by
  induction l with
  | nil => simp [isSortedGE]
  | cons a tl ih =>
    cases tl with
    | nil => simp [isSortedGE]
    | cons b rest =>
      rw [List.chain'_cons, ← ih]
      simp [isSortedGE]

theorem isSortedLE_reverse (l : List ℚ) :
    isSortedLE l.reverse = isSortedGE l := by
  have hiff : isSortedLE l.reverse = true ↔ isSortedGE l = true := by
    rw [isSortedLE_iff, isSortedGE_iff]
    exact List.chain'_reverse
  cases hle : isSortedLE l.reverse <;> cases hge : isSortedGE l <;> simp_all

theorem isSortedGE_reverse (l : List ℚ) :
    isSortedGE l.reverse = isSortedLE l := by
  have h := isSortedLE_reverse l.reverse
  rw [List.reverse_reverse] at h
  exact h.symm

/-- C6: a strictly non-monotonic stripping-time grid (neither monotonically
increasing nor decreasing) makes the pipeline fail with `InvalidTimeGrid` —
reversing on `ts[1] < ts[0]` cannot repair non-monotonicity — while a
monotonically decreasing grid is accepted, reversed internally whenever its
first step decreases. -/
theorem time_grid_validation (ts : List ℚ) :
    (isSortedLE ts = false → isSortedGE ts = false →
      run_time_grid ts = .error .invalidTimeGrid)
  ∧ (isSortedGE ts = true → ∃ out, run_time_grid ts = .ok out)
  ∧ (isSortedGE ts = true → jaxNth ts 1 < jaxNth ts 0 →
      run_time_grid ts = .ok ts.reverse) := by
  refine ⟨?_, ?_, ?_⟩
  · intro hle hge
    unfold run_time_grid cond_reverse validate_time_grid
    by_cases hrev : jaxNth ts 1 < jaxNth ts 0
    · simp [hrev, isSortedLE_reverse, isSortedGE_reverse, hle, hge]
    · simp [hrev, hle, hge]
  · intro hge
    unfold run_time_grid cond_reverse validate_time_grid
    by_cases hrev : jaxNth ts 1 < jaxNth ts 0
    · refine ⟨ts.reverse, ?_⟩
      simp [hrev, isSortedLE_reverse, hge]
    · refine ⟨ts, ?_⟩
      simp [hrev, hge]
  · intro hge hrev
    unfold run_time_grid cond_reverse validate_time_grid
    simp [hrev, isSortedLE_reverse, hge]

/-- C6 witness: the spec's example `[0, 5, 2, 10]` is rejected with
`InvalidTimeGrid`, while the decreasing `[10, 5, 0]` is accepted after
internal reversal. -/
theorem time_grid_validation_witness :
    run_time_grid [0, 5, 2, 10] = .error .invalidTimeGrid
  ∧ run_time_grid [10, 5, 0] = .ok (([10, 5, 0] : List ℚ).reverse) :=
  ⟨(time_grid_validation [0, 5, 2, 10]).1 (by decide) (by decide),
   (time_grid_validation [10, 5, 0]).2.2 (by decide) (by decide)⟩

end GalaxSpec
